import Mathlib

/-!
Verification of the CA-bundle builder (`package_control/ca_certs.py`).

The Python module is shallowly embedded: every line-oriented parser is a
fold over the list of output lines of the external tool (the subprocess
calls themselves, `openssl`/`security`/`certutil`, are out of scope and
their textual output is the input of the embedded function), file system
state is passed explicitly as records of content and modification time,
and clock values (`time.time()`, `datetime.now()`, parsed timestamps) are
integers.
-/

namespace CaCerts

/-- Python whitespace class used by `str.strip()` and the `\s` regex class
on byte strings: space, tab, newline, carriage return, form feed and
vertical tab. -/
def isSpaceChar (c : Char) : Bool :=
  c = ' ' || c = '\t' || c = '\n' || c = '\r' || c = Char.ofNat 11 || c = Char.ofNat 12

/-- Occurrence of `needle` as a contiguous run at some position of `cs`. -/
def infixAt (needle : List Char) : List Char → Bool
  | [] => needle.isEmpty
  | c :: rest => List.isPrefixOf needle (c :: rest) || infixAt needle rest

/-- Python `line.find(sub) != -1`: `sub` occurs somewhere inside `line`. -/
def containsSub (line sub : String) : Bool :=
  infixAt sub.data line.data

/-- Python `"\n".join(items)`. -/
def joinLines : List String → String
  | [] => ""
  | [l] => l
  | l :: l2 :: rest => l ++ "\n" ++ joinLines (l2 :: rest)

/-- Python `s.strip()`: remove leading and trailing whitespace. -/
def pyStrip (s : String) : String :=
  String.mk (((s.data.dropWhile isSpaceChar).reverse.dropWhile isSpaceChar).reverse)

/-- Trailing-whitespace-only trim (Python `s.rstrip()`); this is not what the
source calls, it is used to state what the spec sentence literally asks for. -/
def pyRstrip (s : String) : String :=
  String.mk ((s.data.reverse.dropWhile isSpaceChar).reverse)

/-! State of the PEM block scanner of `_osx_create_ca_bundle` (lines 242-253):
`in_block`, the accumulating `temp` lines, and the finalized records. -/

structure OsxScan where
  inBlock : Bool
  temp : List String
  records : List String
  deriving Repr, DecidableEq

/-- One loop iteration of the block-splitting scan in `_osx_create_ca_bundle`
(lines 243-253), with the per-record distrust filtering factored out: every
finalized `"\n".join(temp)` value is recorded. -/
def osxStep (s : OsxScan) (line : String) : OsxScan :=
  let inB := containsSub line "BEGIN CERTIFICATE" || s.inBlock
  let temp := if inB then s.temp ++ [line] else s.temp
  if containsSub line "END CERTIFICATE" then
    ⟨false, [], s.records ++ [joinLines temp]⟩
  else
    ⟨inB, temp, s.records⟩

/-- The certificate records finalized by the block-splitting scan of
`_osx_create_ca_bundle` over the `security export` output lines. -/
def osxRecords (lines : List String) : List String :=
  (List.foldl osxStep ⟨false, [], []⟩ lines).records

/-- Python `cert_name in distrusted_certs` at line 258, for a resolved name:
an absent (`None`) name is never equal to a string of the list. -/
def isDistrustedB (resolve : String → Option String) (distrusted : List String)
    (cert : String) : Bool :=
  match resolve cert with
  | none => false
  | some n => distrusted.contains n

/-- The per-record keep decision of `_osx_create_ca_bundle` (lines 255-261):
when the distrust list is empty the name is not even resolved; otherwise the
record is skipped exactly when its resolved name is in the list. -/
def osxKeep (resolve : String → Option String) (distrusted : List String)
    (cert : String) : Bool :=
  if distrusted.isEmpty then true
  else
    match resolve cert with
    | none => true
    | some n => !(distrusted.contains n)

/-- Distrust filtering of the finalized records (lines 255-263). -/
def osxFilter (resolve : String → Option String) (distrusted : List String)
    (certs : List String) : List String :=
  certs.filter (osxKeep resolve distrusted)

/-! The combined loop of `_osx_create_ca_bundle` (lines 242-263), exactly as
the source interleaves block finalization and distrust filtering. -/

structure OsxBuild where
  inBlock : Bool
  temp : List String
  certs : List String
  deriving Repr, DecidableEq

/-- One loop iteration of `_osx_create_ca_bundle` (lines 243-263): finalize a
block on an `END CERTIFICATE` line and keep it unless it is distrusted. -/
def osxBuildStep (resolve : String → Option String) (distrusted : List String)
    (s : OsxBuild) (line : String) : OsxBuild :=
  let inB := containsSub line "BEGIN CERTIFICATE" || s.inBlock
  let temp := if inB then s.temp ++ [line] else s.temp
  if containsSub line "END CERTIFICATE" then
    let cert := joinLines temp
    if !distrusted.isEmpty && isDistrustedB resolve distrusted cert then
      ⟨false, [], s.certs⟩
    else
      ⟨false, [], s.certs ++ [cert]⟩
  else
    ⟨inB, temp, s.certs⟩

/-- The list of certificates `_osx_create_ca_bundle` persists: the loop of
lines 242-263 followed by the final write of `"\n".join(certs)` (line 266).
`resolve` abstracts `openssl_get_cert_name` on a PEM block, `lines` is the
`security export` output. -/
def osx_create_ca_bundle_certs (resolve : String → Option String)
    (distrusted : List String) (lines : List String) : List String :=
  (List.foldl (osxBuildStep resolve distrusted) ⟨false, [], []⟩ lines).certs

/-- The persisted system bundle text (line 266). -/
def osx_create_ca_bundle (resolve : String → Option String)
    (distrusted : List String) (lines : List String) : String :=
  joinLines (osx_create_ca_bundle_certs resolve distrusted lines)

/-! Lemmas about the block scan and the distrust filter. -/

theorem osxKeep_not_skip (resolve : String → Option String) (distrusted : List String)
    (cert : String) :
    osxKeep resolve distrusted cert
      = !(!distrusted.isEmpty && isDistrustedB resolve distrusted cert) := by
  cases hd : distrusted.isEmpty <;> cases hr : resolve cert <;>
    simp [osxKeep, isDistrustedB, hd, hr]

theorem osxKeep_eq_not_distrusted (resolve : String → Option String)
    (distrusted : List String) (cert : String) :
    osxKeep resolve distrusted cert = !(isDistrustedB resolve distrusted cert) := by
  cases distrusted <;> cases hr : resolve cert <;>
    simp [osxKeep, isDistrustedB, hr]

/-- New temp after one scan line while the in-block flag was `b`. -/
def tempAfter (b : Bool) (t : List String) (line : String) : List String :=
  if containsSub line "BEGIN CERTIFICATE" || b then t ++ [line] else t

theorem osxStep_end (b : Bool) (t rs : List String) (line : String)
    (h : containsSub line "END CERTIFICATE" = true) :
    osxStep ⟨b, t, rs⟩ line = ⟨false, [], rs ++ [joinLines (tempAfter b t line)]⟩ := by
  simp [osxStep, tempAfter, h]

theorem osxStep_mid (b : Bool) (t rs : List String) (line : String)
    (h : containsSub line "END CERTIFICATE" = false) :
    osxStep ⟨b, t, rs⟩ line
      = ⟨containsSub line "BEGIN CERTIFICATE" || b, tempAfter b t line, rs⟩ := by
  simp [osxStep, tempAfter, h]

theorem osxBuildStep_end (resolve : String → Option String) (distrusted : List String)
    (b : Bool) (t cs : List String) (line : String)
    (h : containsSub line "END CERTIFICATE" = true) :
    osxBuildStep resolve distrusted ⟨b, t, cs⟩ line
      = ⟨false, [],
          if osxKeep resolve distrusted (joinLines (tempAfter b t line))
          then cs ++ [joinLines (tempAfter b t line)] else cs⟩ := by
  rw [osxKeep_not_skip]
  cases hskip : (!distrusted.isEmpty
      && isDistrustedB resolve distrusted (joinLines (tempAfter b t line))) <;>
      simp [osxBuildStep, tempAfter, h, hskip] at * <;>
    assumption

theorem osxBuildStep_mid (resolve : String → Option String) (distrusted : List String)
    (b : Bool) (t cs : List String) (line : String)
    (h : containsSub line "END CERTIFICATE" = false) :
    osxBuildStep resolve distrusted ⟨b, t, cs⟩ line
      = ⟨containsSub line "BEGIN CERTIFICATE" || b, tempAfter b t line, cs⟩ := by
  simp [osxBuildStep, tempAfter, h]

theorem osx_records_shift (lines : List String) :
    ∀ b t rs, (List.foldl osxStep ⟨b, t, rs⟩ lines).records
      = rs ++ (List.foldl osxStep ⟨b, t, []⟩ lines).records := by
  induction lines with
  | nil => intro b t rs; simp
  | cons line rest ih =>
    intro b t rs
    rw [List.foldl_cons, List.foldl_cons]
    cases hend : containsSub line "END CERTIFICATE"
    · rw [osxStep_mid _ _ _ _ hend, osxStep_mid _ _ _ _ hend]
      exact ih _ _ rs
    · rw [osxStep_end _ _ _ _ hend, osxStep_end _ _ _ _ hend,
          ih false _ (rs ++ [joinLines (tempAfter b t line)]),
          ih false _ ([] ++ [joinLines (tempAfter b t line)])]
      simp

theorem osx_scan_frame (lines : List String) :
    ∀ b t rs, (List.foldl osxStep ⟨b, t, rs⟩ lines).inBlock
        = (List.foldl osxStep ⟨b, t, []⟩ lines).inBlock
      ∧ (List.foldl osxStep ⟨b, t, rs⟩ lines).temp
        = (List.foldl osxStep ⟨b, t, []⟩ lines).temp := by
  induction lines with
  | nil => intro b t rs; exact ⟨rfl, rfl⟩
  | cons line rest ih =>
    intro b t rs
    rw [List.foldl_cons, List.foldl_cons]
    cases hend : containsSub line "END CERTIFICATE"
    · rw [osxStep_mid _ _ _ _ hend, osxStep_mid _ _ _ _ hend]
      exact ih _ _ rs
    · rw [osxStep_end _ _ _ _ hend, osxStep_end _ _ _ _ hend]
      exact ⟨((ih false [] _).1).trans ((ih false [] _).1).symm,
             ((ih false [] _).2).trans ((ih false [] _).2).symm⟩

theorem osx_build_decompose (resolve : String → Option String) (distrusted : List String)
    (lines : List String) :
    ∀ b t cs, List.foldl (osxBuildStep resolve distrusted) ⟨b, t, cs⟩ lines
      = ⟨(List.foldl osxStep ⟨b, t, []⟩ lines).inBlock,
         (List.foldl osxStep ⟨b, t, []⟩ lines).temp,
         cs ++ osxFilter resolve distrusted (List.foldl osxStep ⟨b, t, []⟩ lines).records⟩ := by
  induction lines with
  | nil => intro b t cs; simp [osxFilter]
  | cons line rest ih =>
    intro b t cs
    rw [List.foldl_cons, List.foldl_cons]
    cases hend : containsSub line "END CERTIFICATE"
    · rw [osxBuildStep_mid _ _ _ _ _ _ hend, osxStep_mid _ _ _ _ hend]
      exact ih _ _ cs
    · rw [osxBuildStep_end _ _ _ _ _ _ hend, osxStep_end _ _ _ _ hend]
      rw [ih false []]
      have hrec := osx_records_shift rest false [] [joinLines (tempAfter b t line)]
      have hfr := osx_scan_frame rest false [] [joinLines (tempAfter b t line)]
      simp only [List.nil_append] at hrec hfr ⊢
      rw [hrec]
      cases hk : osxKeep resolve distrusted (joinLines (tempAfter b t line)) <;>
        simp [hk, osxFilter, List.filter_append, List.filter_cons, hfr.1, hfr.2]

/-- C1: distrust filtering in the macOS bundle build is a pure set difference
by resolved name. The surviving list is exactly the candidates minus those
whose resolved name lies in the distrust set, the result is permutation
invariant in the candidate order, a record with an unresolved name is never
dropped, and a record whose resolved name is in the distrust set never
reaches the persisted bundle built by `_osx_create_ca_bundle`. -/
theorem c1_distrust_filter_set_difference
    (resolve : String → Option String) (distrusted : List String)
    (certs certs2 lines : List String) :
    osxFilter resolve distrusted certs
        = certs.filter (fun c => !(isDistrustedB resolve distrusted c))
    ∧ (certs.Perm certs2 →
        (osxFilter resolve distrusted certs).Perm (osxFilter resolve distrusted certs2))
    ∧ (∀ c, c ∈ certs → resolve c = none → c ∈ osxFilter resolve distrusted certs)
    ∧ (∀ c n, resolve c = some n → n ∈ distrusted →
        c ∉ osxFilter resolve distrusted certs)
    ∧ (∀ c n, resolve c = some n → n ∈ distrusted →
        c ∉ osx_create_ca_bundle_certs resolve distrusted lines) := by
  have hfun : osxKeep resolve distrusted
      = fun c => !(isDistrustedB resolve distrusted c) :=
    funext (osxKeep_eq_not_distrusted resolve distrusted)
  have hnotmem : ∀ cs2 : List String, ∀ c n, resolve c = some n → n ∈ distrusted →
      c ∉ osxFilter resolve distrusted cs2 := by
    intro cs2 c n hr hn hmem
    rw [osxFilter, List.mem_filter] at hmem
    have := hmem.2
    rw [osxKeep_eq_not_distrusted] at this
    simp [isDistrustedB, hr] at this
    exact this hn
  refine ⟨by rw [osxFilter, hfun], ?_, ?_, hnotmem certs, ?_⟩
  · intro hperm
    exact hperm.filter _
  · intro c hc hr
    rw [osxFilter, List.mem_filter]
    refine ⟨hc, ?_⟩
    rw [osxKeep_eq_not_distrusted]
    simp [isDistrustedB, hr]
  · intro c n hr hn
    rw [osx_create_ca_bundle_certs, osx_build_decompose]
    simp only [List.nil_append]
    exact hnotmem _ c n hr hn

/-- Witness for C1: a concrete resolver, distrust set and candidate list. -/
theorem c1_distrust_filter_set_difference_witness :
    ("B" ∈ osxFilter (fun c => if c = "A" then some "X" else none) ["X"] ["A", "B"])
    ∧ ("A" ∉ osxFilter (fun c => if c = "A" then some "X" else none) ["X"] ["A", "B"]) :=
  ⟨(c1_distrust_filter_set_difference (fun c => if c = "A" then some "X" else none)
      ["X"] ["A", "B"] [] []).2.2.1 "B" (by decide) (by decide),
   (c1_distrust_filter_set_difference (fun c => if c = "A" then some "X" else none)
      ["X"] ["A", "B"] [] []).2.2.2.1 "A" "X" (by decide) (by decide)⟩

/-! Well-formed PEM streams: the shape of `security export` output that C6
quantifies over. A stream is junk lines, then blocks, each a
`-----BEGIN CERTIFICATE-----` line, base64 body lines, an
`-----END CERTIFICATE-----` line and junk separator lines; junk and body
lines contain neither marker. -/

def beginLine : String := "-----BEGIN CERTIFICATE-----"

def endLine : String := "-----END CERTIFICATE-----"

/-- A line that contains neither PEM delimiter marker. -/
def cleanLine (l : String) : Bool :=
  !(containsSub l "BEGIN CERTIFICATE") && !(containsSub l "END CERTIFICATE")

structure PemBlock where
  body : List String
  sepAfter : List String
  deriving Repr, DecidableEq

def blockLines (b : PemBlock) : List String :=
  [beginLine] ++ b.body ++ [endLine] ++ b.sepAfter

def pemStream (lead : List String) (blocks : List PemBlock) : List String :=
  lead ++ (blocks.map blockLines).flatten

/-- The record the scan finalizes for one block: the delimiter lines and the
body, newline-joined. -/
def blockRecord (b : PemBlock) : String :=
  joinLines ([beginLine] ++ b.body ++ [endLine])

def cleanBlock (b : PemBlock) : Bool :=
  b.body.all cleanLine && b.sepAfter.all cleanLine

theorem beginLine_has_begin : containsSub beginLine "BEGIN CERTIFICATE" = true := by decide

theorem beginLine_no_end : containsSub beginLine "END CERTIFICATE" = false := by decide

theorem endLine_no_begin : containsSub endLine "BEGIN CERTIFICATE" = false := by decide

theorem endLine_has_end : containsSub endLine "END CERTIFICATE" = true := by decide

theorem cleanLine_begin {l : String} (h : cleanLine l = true) :
    containsSub l "BEGIN CERTIFICATE" = false := by
  simp [cleanLine] at h
  exact h.1

theorem cleanLine_end {l : String} (h : cleanLine l = true) :
    containsSub l "END CERTIFICATE" = false := by
  simp [cleanLine] at h
  exact h.2

theorem osx_scan_clean (junk : List String) :
    ∀ t rs, junk.all cleanLine = true →
      List.foldl osxStep ⟨false, t, rs⟩ junk = ⟨false, t, rs⟩ := by
  induction junk with
  | nil => intro t rs _; rfl
  | cons line rest ih =>
    intro t rs h
    simp only [List.all_cons, Bool.and_eq_true] at h
    rw [List.foldl_cons, osxStep_mid _ _ _ _ (cleanLine_end h.1)]
    have ht : tempAfter false t line = t := by
      simp [tempAfter, cleanLine_begin h.1]
    rw [ht, cleanLine_begin h.1]
    exact ih t rs h.2

theorem osx_scan_body (body : List String) :
    ∀ t rs, body.all cleanLine = true →
      List.foldl osxStep ⟨true, t, rs⟩ body = ⟨true, t ++ body, rs⟩ := by
  induction body with
  | nil => intro t rs _; simp
  | cons line rest ih =>
    intro t rs h
    simp only [List.all_cons, Bool.and_eq_true] at h
    rw [List.foldl_cons, osxStep_mid _ _ _ _ (cleanLine_end h.1)]
    have ht : tempAfter true t line = t ++ [line] := by
      simp [tempAfter]
    rw [ht, Bool.or_true, ih (t ++ [line]) rs h.2]
    simp

theorem osx_scan_block (b : PemBlock) (hb : cleanBlock b = true) (rs : List String) :
    List.foldl osxStep ⟨false, [], rs⟩ (blockLines b)
      = ⟨false, [], rs ++ [blockRecord b]⟩ := by
  simp only [cleanBlock, Bool.and_eq_true] at hb
  have hsplit : blockLines b = beginLine :: (b.body ++ ([endLine] ++ b.sepAfter)) := by
    simp [blockLines]
  rw [hsplit, List.foldl_cons, osxStep_mid _ _ _ _ beginLine_no_end]
  have ht : tempAfter false [] beginLine = [beginLine] := by
    simp [tempAfter, beginLine_has_begin]
  rw [ht, beginLine_has_begin]
  have hb1 : (true || false) = true := rfl
  rw [hb1]
  rw [List.foldl_append, osx_scan_body b.body [beginLine] rs hb.1]
  rw [List.foldl_append, List.foldl_cons, List.foldl_nil,
      osxStep_end _ _ _ _ endLine_has_end]
  have ht2 : tempAfter true ([beginLine] ++ b.body) endLine
      = [beginLine] ++ b.body ++ [endLine] := by
    simp [tempAfter]
  rw [ht2, osx_scan_clean b.sepAfter [] _ hb.2]
  rfl

theorem osx_scan_stream (blocks : List PemBlock) :
    ∀ lead rs, lead.all cleanLine = true → blocks.all cleanBlock = true →
      List.foldl osxStep ⟨false, [], rs⟩ (pemStream lead blocks)
        = ⟨false, [], rs ++ blocks.map blockRecord⟩ := by
  induction blocks with
  | nil =>
    intro lead rs hl _
    simp only [pemStream, List.map_nil, List.flatten_nil, List.append_nil]
    exact osx_scan_clean lead [] rs hl
  | cons b bs ih =>
    intro lead rs hl hb
    simp only [List.all_cons, Bool.and_eq_true] at hb
    have hsplit : pemStream lead (b :: bs) = (lead ++ blockLines b) ++ pemStream [] bs := by
      simp [pemStream]
    rw [hsplit, List.foldl_append, List.foldl_append,
        osx_scan_clean lead [] rs hl, osx_scan_block b hb.1 rs]
    rw [ih [] (rs ++ [blockRecord b]) rfl hb.2]
    simp

theorem pemStream_begin_count (blocks : List PemBlock) :
    ∀ lead, lead.all cleanLine = true → blocks.all cleanBlock = true →
      (pemStream lead blocks).countP (fun l => containsSub l "BEGIN CERTIFICATE")
        = blocks.length := by
  have hclean : ∀ junk : List String, junk.all cleanLine = true →
      junk.countP (fun l => containsSub l "BEGIN CERTIFICATE") = 0 := by
    intro junk hj
    rw [List.countP_eq_zero]
    intro a ha
    simp only [List.all_eq_true] at hj
    simp [cleanLine_begin (hj a ha)]
  induction blocks with
  | nil =>
    intro lead hl _
    simp [pemStream, hclean lead hl]
  | cons b bs ih =>
    intro lead hl hb
    simp only [List.all_cons, Bool.and_eq_true] at hb
    simp only [cleanBlock, Bool.and_eq_true] at hb
    have hsplit : pemStream lead (b :: bs) = (lead ++ blockLines b) ++ pemStream [] bs := by
      simp [pemStream]
    rw [hsplit, List.countP_append, List.countP_append]
    rw [hclean lead hl, ih [] rfl hb.2]
    simp only [blockLines]
    rw [List.countP_append, List.countP_append, List.countP_append]
    rw [hclean b.body hb.1.1, hclean b.sepAfter hb.1.2]
    simp [beginLine_has_begin, endLine_no_begin, List.countP_cons, Nat.add_comm]

theorem joinLines_two (x y : String) (l : List String) :
    joinLines (x :: y :: l) = x ++ "\n" ++ joinLines (y :: l) := rfl

theorem joinLines_cons_append (a : String) (l : List String) (h : l ≠ []) :
    ∃ s, joinLines (a :: l) = a ++ s := by
  cases l with
  | nil => exact absurd rfl h
  | cons x xs =>
    exact ⟨"\n" ++ joinLines (x :: xs), by rw [joinLines_two, String.append_assoc]⟩

theorem joinLines_append_last (e : String) (l : List String) :
    ∃ p, joinLines (l ++ [e]) = p ++ e := by
  induction l with
  | nil => exact ⟨"", by simp [joinLines]⟩
  | cons x xs ih =>
    obtain ⟨p, hp⟩ := ih
    cases xs with
    | nil => exact ⟨x ++ "\n", rfl⟩
    | cons y ys =>
      refine ⟨x ++ "\n" ++ p, ?_⟩
      have hp2 : joinLines (y :: (ys ++ [e])) = p ++ e := hp
      have hx : (x :: y :: ys) ++ [e] = x :: y :: (ys ++ [e]) := rfl
      rw [hx, joinLines_two, hp2, String.append_assoc (x ++ "\n") p e]

/-- C6: on every well-formed multi-certificate PEM stream the block-splitting
scan of `_osx_create_ca_bundle` produces exactly one record per
`BEGIN CERTIFICATE` marker line (the records are the blocks, in order, so
their number equals the marker-line count), and every record starts with the
BEGIN delimiter line and ends with the END delimiter line. -/
theorem c6_pem_block_split (lead : List String) (blocks : List PemBlock)
    (hl : lead.all cleanLine = true) (hb : blocks.all cleanBlock = true) :
    osxRecords (pemStream lead blocks) = blocks.map blockRecord
    ∧ (pemStream lead blocks).countP (fun l => containsSub l "BEGIN CERTIFICATE")
        = (osxRecords (pemStream lead blocks)).length
    ∧ ∀ r ∈ osxRecords (pemStream lead blocks),
        (∃ s, r = beginLine ++ s) ∧ (∃ p, r = p ++ endLine) := by
  have hrec : osxRecords (pemStream lead blocks) = blocks.map blockRecord := by
    rw [osxRecords, osx_scan_stream blocks lead [] hl hb]
    rfl
  refine ⟨hrec, ?_, ?_⟩
  · rw [hrec, List.length_map, pemStream_begin_count blocks lead hl hb]
  · intro r hr
    rw [hrec, List.mem_map] at hr
    obtain ⟨b, _, hbr⟩ := hr
    constructor
    · obtain ⟨s, hs⟩ := joinLines_cons_append beginLine (b.body ++ [endLine]) (by simp)
      exact ⟨s, by rw [← hbr, blockRecord]; simpa using hs⟩
    · obtain ⟨p, hp⟩ := joinLines_append_last endLine ([beginLine] ++ b.body)
      refine ⟨p, ?_⟩
      rw [← hbr, blockRecord]
      have : [beginLine] ++ b.body ++ [endLine] = ([beginLine] ++ b.body) ++ [endLine] := by
        simp
      rw [this, hp]

/-- Witness for C6: a two-certificate stream with leading junk and a blank
separator line. -/
theorem c6_pem_block_split_witness :
    osxRecords (pemStream ["keychain header"]
        [⟨["MIIBbase64"], [""]⟩, ⟨["MIICbase64"], []⟩])
      = [blockRecord ⟨["MIIBbase64"], [""]⟩, blockRecord ⟨["MIICbase64"], []⟩] :=
  (c6_pem_block_split ["keychain header"]
      [⟨["MIIBbase64"], [""]⟩, ⟨["MIICbase64"], []⟩] (by decide) (by decide)).1

/-! CertNameResolver: the output parsing of `openssl_get_cert_name`
(lines 197-214). The subprocess call is external; its stdout lines are the
input of the embedded function. -/

/-- Match of a regex of the shape `^\s+field(.*)$`: at least one leading
whitespace character, then the literal `field`; the group is the rest of the
line. The literal starts with a non-whitespace character, so the greedy
`\s+` consumes exactly the maximal whitespace prefix. -/
def matchPrefixedField (field : String) (line : String) : Option String :=
  let ws := line.data.takeWhile isSpaceChar
  let rest := line.data.dropWhile isSpaceChar
  if ws.isEmpty then none
  else if List.isPrefixOf field.data rest then
    some (String.mk (rest.drop field.data.length))
  else none

/-- Regex `^\s+commonName=(.*)$` of line 204. -/
def matchCN (line : String) : Option String :=
  matchPrefixedField "commonName=" line

/-- Regex `^\s+organizationalUnitName=(.*)$` of line 208. -/
def matchOU (line : String) : Option String :=
  matchPrefixedField "organizationalUnitName=" line

/-- Python `cn or first_ou` (line 214): `None` and the empty string are both
falsy, so an empty commonName falls through to the fallback. -/
def pyOr (a b : Option String) : Option String :=
  match a with
  | some s => if s = "" then b else some s
  | none => b

/-- The scanning loop of `openssl_get_cert_name` (lines 203-211) followed by
the `return cn or first_ou` of line 214; `firstOu` is the `first_ou`
accumulator. -/
def osslScan : List String → Option String → Option String
  | [], firstOu => pyOr none firstOu
  | line :: rest, firstOu =>
    match matchCN line with
    | some v => pyOr (some v) firstOu
    | none =>
      match firstOu with
      | some s => osslScan rest (some s)
      | none =>
        match matchOU line with
        | some v => osslScan rest (some v)
        | none => osslScan rest none

/-- The name `openssl_get_cert_name` resolves from the subject dump lines. -/
def openssl_get_cert_name (resultLines : List String) : Option String :=
  osslScan resultLines none

/-- First-set-wins accumulator semantics of `first_ou`. -/
def firstSet (fo alt : Option String) : Option String :=
  match fo with
  | some s => some s
  | none => alt

/-- Lines scanned before the first commonName match stops the loop. -/
def preCN (lines : List String) : List String :=
  lines.takeWhile (fun l => (matchCN l).isNone)

/-- Specification-level description of the resolver: the first commonName
value when non-empty; an empty first commonName value, or no commonName line
at all, falls back to the first organizationalUnitName line seen before
scanning stopped; otherwise the name is absent. -/
def osslNameSpec (lines : List String) : Option String :=
  match lines.findSome? matchCN with
  | some v => if v = "" then (preCN lines).findSome? matchOU else some v
  | none => lines.findSome? matchOU

theorem osslScan_characterize (lines : List String) :
    ∀ fo, osslScan lines fo
      = match lines.findSome? matchCN with
        | some v => pyOr (some v) (firstSet fo ((preCN lines).findSome? matchOU))
        | none => firstSet fo (lines.findSome? matchOU) := by
  induction lines with
  | nil => intro fo; cases fo <;> simp [osslScan, preCN, pyOr, firstSet]
  | cons line rest ih =>
    intro fo
    cases hcn : matchCN line with
    | some v =>
      cases fo <;>
        simp [osslScan, hcn, List.findSome?_cons, preCN, List.takeWhile_cons, firstSet]
    | none =>
      cases fo with
      | some s =>
        rw [osslScan.eq_def]
        simp only [hcn]
        rw [ih (some s)]
        cases hf : rest.findSome? matchCN <;>
          simp [List.findSome?_cons, hcn, hf, firstSet]
      | none =>
        cases hou : matchOU line with
        | some u =>
          rw [osslScan.eq_def]
          simp only [hcn, hou]
          rw [ih (some u)]
          cases hf : rest.findSome? matchCN <;>
            simp [List.findSome?_cons, hcn, hou, hf, firstSet, preCN,
              List.takeWhile_cons]
        | none =>
          rw [osslScan.eq_def]
          simp only [hcn, hou]
          rw [ih none]
          cases hf : rest.findSome? matchCN <;>
            simp [List.findSome?_cons, hcn, hou, hf, firstSet, preCN,
              List.takeWhile_cons]

/-- C8 counterexample: on the one-line subject dump `" commonName="` the
first commonName-matching line has the value `""`, yet the resolver returns
an absent name rather than that value: Python's `cn or first_ou` treats the
empty commonName as false. -/
theorem c8_cert_name_resolution_counterexample :
    matchCN " commonName=" = some ""
    ∧ openssl_get_cert_name [" commonName="] = none := by
  exact ⟨by decide, by decide⟩

/-- C8 (amended): the resolver returns the value of the first line matching
leading-whitespace-anchored `commonName=<value>` when that value is
non-empty (scanning stops at that line); when the first commonName value is
empty, or when no commonName line exists, it returns the value of the first
`organizationalUnitName=<value>` line seen before scanning stopped; if there
is none, the name is absent. -/
theorem c8_cert_name_resolution (lines : List String) :
    openssl_get_cert_name lines = osslNameSpec lines
    ∧ (∀ v, lines.findSome? matchCN = some v → v ≠ "" →
        openssl_get_cert_name lines = some v)
    ∧ (lines.findSome? matchCN = none →
        openssl_get_cert_name lines = lines.findSome? matchOU) := by
  have hchar := osslScan_characterize lines none
  have hmain : openssl_get_cert_name lines = osslNameSpec lines := by
    rw [openssl_get_cert_name, hchar, osslNameSpec]
    cases hf : lines.findSome? matchCN <;> simp [firstSet, pyOr]
  refine ⟨hmain, ?_, ?_⟩
  · intro v hf hv
    rw [hmain, osslNameSpec, hf]
    simp [hv]
  · intro hf
    rw [hmain, osslNameSpec, hf]

/-- Witness for C8 at a concrete subject dump with an OU line before the
commonName line. -/
theorem c8_cert_name_resolution_witness :
    openssl_get_cert_name
        ["    organizationalUnitName=Some Unit", "    commonName=Root CA"]
      = some "Root CA" :=
  (c8_cert_name_resolution
      ["    organizationalUnitName=Some Unit", "    commonName=Root CA"]).2.1
    "Root CA" (by decide) (by decide)

/-! MacTrustFilter: the `security dump-trust-settings -d` output parser of
`_osx_get_distrusted_certs` (lines 286-318). The regexes are embedded as
deterministic maximal-run scanners over the character list: each greedy
`\s+` or `\d+` is followed by a character outside its class, so backtracking
never changes the match. -/

def isDigitChar (c : Char) : Bool := '0' ≤ c && c ≤ '9'

/-- Consume one-or-more whitespace characters (`\s+`). -/
def eatWs (cs : List Char) : Option (List Char) :=
  if (cs.takeWhile isSpaceChar).isEmpty then none
  else some (cs.dropWhile isSpaceChar)

/-- Consume one-or-more digits (`\d+`). -/
def eatDigits (cs : List Char) : Option (List Char) :=
  if (cs.takeWhile isDigitChar).isEmpty then none
  else some (cs.dropWhile isDigitChar)

/-- Consume an exact literal. -/
def eatLit (lit : String) (cs : List Char) : Option (List Char) :=
  if List.isPrefixOf lit.data cs then some (cs.drop lit.data.length) else none

/-- Regex `Cert\s+\d+:\s+(.*)$` of line 297 (anchored at the line start by
`re.match`); the group is the certificate name. -/
def matchCertLine (line : String) : Option String :=
  (eatLit "Cert" line.data).bind fun r1 =>
  (eatWs r1).bind fun r2 =>
  (eatDigits r2).bind fun r3 =>
  (eatLit ":" r3).bind fun r4 =>
  (eatWs r4).map fun r5 => String.mk r5

/-- Regex `^\s+Trust\s+Setting\s+\d+:` of line 303 (prefix match). -/
def matchTrustSettingLine (line : String) : Bool :=
  ((eatWs line.data).bind fun r1 =>
   (eatLit "Trust" r1).bind fun r2 =>
   (eatWs r2).bind fun r3 =>
   (eatLit "Setting" r3).bind fun r4 =>
   (eatWs r4).bind fun r5 =>
   (eatDigits r5).bind fun r6 =>
   eatLit ":" r6).isSome

/-- Regex `^\s+Policy\s+OID\s+:\s+SSL` of line 308 (prefix match). -/
def matchPolicySSLLine (line : String) : Bool :=
  ((eatWs line.data).bind fun r1 =>
   (eatLit "Policy" r1).bind fun r2 =>
   (eatWs r2).bind fun r3 =>
   (eatLit "OID" r3).bind fun r4 =>
   (eatWs r4).bind fun r5 =>
   (eatLit ":" r5).bind fun r6 =>
   (eatWs r6).bind fun r7 =>
   eatLit "SSL" r7).isSome

/-- Regex `^\s+Result\s+Type\s+:\s+kSecTrustSettingsResultDeny` of line 312
(prefix match). -/
def matchDenyLine (line : String) : Bool :=
  ((eatWs line.data).bind fun r1 =>
   (eatLit "Result" r1).bind fun r2 =>
   (eatWs r2).bind fun r3 =>
   (eatLit "Type" r3).bind fun r4 =>
   (eatWs r4).bind fun r5 =>
   (eatLit ":" r5).bind fun r6 =>
   (eatWs r6).bind fun r7 =>
   eatLit "kSecTrustSettingsResultDeny" r7).isSome

/-- State of `_osx_get_distrusted_certs`: `cert_name` starts as Python
`None` and the accumulated list may therefore contain an absent name. -/
structure TrustScan where
  certName : Option String
  sslPolicy : Bool
  distrusted : List (Option String)
  deriving Repr, DecidableEq

/-- One loop iteration of `_osx_get_distrusted_certs` (lines 292-316), in
the source's test order: blank line, `Cert N:` reset, `Trust Setting N:`
reset, `Policy OID : SSL`, then the deny rule guarded by the SSL flag and
by non-membership (duplicates ignored). -/
def trustStep (s : TrustScan) (line : String) : TrustScan :=
  if line = "" then s
  else
    match matchCertLine line with
    | some n => ⟨some n, s.sslPolicy, s.distrusted⟩
    | none =>
      if matchTrustSettingLine line then ⟨s.certName, false, s.distrusted⟩
      else if matchPolicySSLLine line then ⟨s.certName, true, s.distrusted⟩
      else if matchDenyLine line && s.sslPolicy
          && !(s.distrusted.contains s.certName) then
        ⟨s.certName, s.sslPolicy, s.distrusted ++ [s.certName]⟩
      else s

/-- The distrusted-name list `_osx_get_distrusted_certs` returns for the
given `security dump-trust-settings` output lines. -/
def osx_get_distrusted_certs (lines : List String) : List (Option String) :=
  (List.foldl trustStep ⟨none, false, []⟩ lines).distrusted

/-- The raw sequence of deny events: the current certificate name at each
`Result Type : kSecTrustSettingsResultDeny` line seen while the SSL-policy
flag is set, without deduplication. -/
def denyEventsAux : Option String → Bool → List String → List (Option String)
  | _, _, [] => []
  | nm, fl, line :: rest =>
    if line = "" then denyEventsAux nm fl rest
    else
      match matchCertLine line with
      | some n => denyEventsAux (some n) fl rest
      | none =>
        if matchTrustSettingLine line then denyEventsAux nm false rest
        else if matchPolicySSLLine line then denyEventsAux nm true rest
        else if matchDenyLine line && fl then nm :: denyEventsAux nm fl rest
        else denyEventsAux nm fl rest

def denyEvents (lines : List String) : List (Option String) :=
  denyEventsAux none false lines

/-- Keep the first occurrence of each element. -/
def dedupFirst (l : List (Option String)) : List (Option String) :=
  List.foldl (fun acc x => if acc.contains x then acc else acc ++ [x]) [] l

theorem trust_scan_eq_dedup (lines : List String) :
    ∀ nm fl acc,
      (List.foldl trustStep ⟨nm, fl, acc⟩ lines).distrusted
        = List.foldl (fun acc2 x => if acc2.contains x then acc2 else acc2 ++ [x])
            acc (denyEventsAux nm fl lines) := by
  induction lines with
  | nil => intro nm fl acc; rfl
  | cons line rest ih =>
    intro nm fl acc
    rw [List.foldl_cons, trustStep.eq_def, denyEventsAux.eq_def]
    by_cases hblank : line = ""
    · simp only [hblank, if_true]
      exact ih nm fl acc
    · simp only [hblank, if_false]
      cases hcert : matchCertLine line with
      | some n => simpa using ih (some n) fl acc
      | none =>
        simp only
        by_cases hts : matchTrustSettingLine line = true
        · simp only [hts, if_true]
          exact ih nm false acc
        · simp only [Bool.not_eq_true] at hts
          simp only [hts, Bool.false_eq_true, if_false]
          by_cases hps : matchPolicySSLLine line = true
          · simp only [hps, if_true]
            exact ih nm true acc
          · simp only [Bool.not_eq_true] at hps
            simp only [hps, Bool.false_eq_true, if_false]
            cases hdeny : (matchDenyLine line && fl)
            · simp only [hdeny, Bool.false_and, Bool.false_eq_true, if_false]
              exact ih nm fl acc
            · cases hmem : acc.contains nm
              · simp only [hdeny, hmem, Bool.true_and, Bool.not_false, if_true,
                  List.foldl_cons]
                rw [ih nm fl (acc ++ [nm])]
                simp [hmem]
              · have hm2 : nm ∈ acc := by simpa using hmem
                simp only [hdeny, hmem, Bool.true_and, Bool.not_true,
                  Bool.false_eq_true, if_false, List.foldl_cons]
                rw [ih nm fl acc]
                simp [hm2]

theorem dedup_foldl_nodup (l : List (Option String)) :
    ∀ acc : List (Option String), acc.Nodup →
      (List.foldl (fun acc2 x => if acc2.contains x then acc2 else acc2 ++ [x])
        acc l).Nodup := by
  induction l with
  | nil => intro acc h; exact h
  | cons x xs ih =>
    intro acc h
    rw [List.foldl_cons]
    cases hmem : acc.contains x
    · simp only [hmem, Bool.false_eq_true, if_false]
      refine ih (acc ++ [x]) ?_
      rw [List.nodup_append]
      refine ⟨h, List.nodup_singleton x, ?_⟩
      intro a ha hb
      simp only [List.mem_singleton] at hb
      subst hb
      have : acc.contains a = true := List.elem_eq_true_of_mem ha
      rw [this] at hmem
      exact absurd hmem (by simp)
    · simp only [hmem, if_true]
      exact ih acc h

theorem dedup_foldl_mem (l : List (Option String)) :
    ∀ (acc : List (Option String)) (x : Option String),
      x ∈ List.foldl (fun acc2 y => if acc2.contains y then acc2 else acc2 ++ [y]) acc l
        ↔ x ∈ acc ∨ x ∈ l := by
  induction l with
  | nil => intro acc x; simp
  | cons y ys ih =>
    intro acc x
    rw [List.foldl_cons]
    cases hmem : acc.contains y
    · simp only [hmem, Bool.false_eq_true, if_false]
      rw [ih (acc ++ [y]) x]
      simp [or_assoc, List.mem_append]
    · simp only [hmem, if_true]
      rw [ih acc x]
      have hy : y ∈ acc := by
        have := hmem
        simpa [List.elem_iff] using this
      constructor
      · rintro (h | h)
        · exact Or.inl h
        · exact Or.inr (List.mem_cons_of_mem y h)
      · rintro (h | h)
        · exact Or.inl h
        · rcases List.mem_cons.1 h with h1 | h1
          · exact Or.inl (h1 ▸ hy)
          · exact Or.inr h1

theorem trust_scan_blank_invariant (lines : List String) :
    ∀ s, List.foldl trustStep s (lines.filter (fun l => l != ""))
      = List.foldl trustStep s lines := by
  induction lines with
  | nil => intro s; rfl
  | cons line rest ih =>
    intro s
    by_cases hblank : line = ""
    · subst hblank
      rw [List.foldl_cons]
      have hstep : trustStep s "" = s := by simp [trustStep]
      rw [hstep]
      simpa using ih s
    · have : (line :: rest).filter (fun l => l != "")
          = line :: rest.filter (fun l => l != "") := by
        simp [List.filter_cons, hblank]
      rw [this, List.foldl_cons, List.foldl_cons]
      exact ih (trustStep s line)

/-- C4: the trust-settings parser returns exactly the first-occurrence
deduplication of the deny events, where a deny event is the current
certificate name (reset at each `Cert N:` line) at each SSL-flagged
`Result Type : kSecTrustSettingsResultDeny` line, the flag being set at a
`Policy OID : SSL` line and cleared at each `Trust Setting N:` line; the
result has no duplicates, blank lines are ignored, and an empty result (no
deny events) is returned as the empty list. -/
theorem c4_trust_settings_scan (lines : List String) :
    osx_get_distrusted_certs lines = dedupFirst (denyEvents lines)
    ∧ (osx_get_distrusted_certs lines).Nodup
    ∧ (∀ x, x ∈ osx_get_distrusted_certs lines ↔ x ∈ denyEvents lines)
    ∧ osx_get_distrusted_certs (lines.filter (fun l => l != ""))
        = osx_get_distrusted_certs lines
    ∧ (∀ s n line, matchCertLine line = some n →
        trustStep s line = ⟨some n, s.sslPolicy, s.distrusted⟩)
    ∧ (∀ s line, line ≠ "" → matchCertLine line = none →
        matchTrustSettingLine line = true →
        trustStep s line = ⟨s.certName, false, s.distrusted⟩)
    ∧ (∀ s line, line ≠ "" → matchCertLine line = none →
        matchTrustSettingLine line = false → matchPolicySSLLine line = true →
        trustStep s line = ⟨s.certName, true, s.distrusted⟩)
    ∧ (denyEvents lines = [] → osx_get_distrusted_certs lines = []) := by
  have hdedup : osx_get_distrusted_certs lines = dedupFirst (denyEvents lines) := by
    rw [osx_get_distrusted_certs, dedupFirst, denyEvents]
    exact trust_scan_eq_dedup lines none false []
  refine ⟨hdedup, ?_, ?_, ?_, ?_, ?_, ?_, ?_⟩
  · rw [hdedup, dedupFirst]
    exact dedup_foldl_nodup (denyEvents lines) [] List.nodup_nil
  · intro x
    rw [hdedup, dedupFirst, dedup_foldl_mem (denyEvents lines) [] x]
    simp
  · rw [osx_get_distrusted_certs, osx_get_distrusted_certs,
        trust_scan_blank_invariant lines]
  · intro s n line hcert
    have hblank : line ≠ "" := by
      intro h
      rw [h] at hcert
      have hnone : matchCertLine "" = none := by decide
      rw [hnone] at hcert
      exact Option.noConfusion hcert
    simp [trustStep, hblank, hcert]
  · intro s line hblank hcert hts
    simp [trustStep, hblank, hcert, hts]
  · intro s line hblank hcert hts hps
    simp [trustStep, hblank, hcert, hts, hps]
  · intro h
    rw [hdedup, h]
    rfl

/-- Witness for C4 at a concrete dump containing a duplicate SSL deny. -/
theorem c4_trust_settings_scan_witness :
    osx_get_distrusted_certs
        ["Cert 0: Bad Root", "", "   Trust Setting 0:",
         "      Policy OID            : SSL",
         "      Result Type           : kSecTrustSettingsResultDeny",
         "      Result Type           : kSecTrustSettingsResultDeny",
         "   Trust Setting 1:",
         "      Result Type           : kSecTrustSettingsResultDeny"]
      = [some "Bad Root"]
    ∧ trustStep ⟨none, true, []⟩ "Cert 1: Other"
      = ⟨some "Other", true, []⟩ := by
  constructor
  · rw [(c4_trust_settings_scan
        ["Cert 0: Bad Root", "", "   Trust Setting 0:",
         "      Policy OID            : SSL",
         "      Result Type           : kSecTrustSettingsResultDeny",
         "      Result Type           : kSecTrustSettingsResultDeny",
         "   Trust Setting 1:",
         "      Result Type           : kSecTrustSettingsResultDeny"]).1]
    decide
  · exact (c4_trust_settings_scan []).2.2.2.2.1 ⟨none, true, []⟩ "Other"
      "Cert 1: Other" (by decide)

/-! WindowsBundleBuilder: the `certutil -store` transcript parser of
`_win_create_ca_bundle` (lines 349-416). `datetime.strptime` on the fixed
format and `datetime.now()` are abstracted as an external clock: `timeParse`
maps a timestamp text to an integer instant and `now` is the current
instant, so `not_after < datetime.datetime.now()` becomes
`timeParse v < now`. -/

def isUpperChar (c : Char) : Bool := 'A' ≤ c && c ≤ 'Z'

def isWordChar (c : Char) : Bool :=
  ('a' ≤ c && c ≤ 'z') || ('A' ≤ c && c ≤ 'Z') || ('0' ≤ c && c ≤ '9') || c = '_'

/-- Lookahead `(?=[A-Z]+=)` of the split pattern at line 380/400: one or
more uppercase letters followed by `=`. -/
def tagFollows (cs : List Char) : Bool :=
  !(cs.takeWhile isUpperChar).isEmpty
    && (cs.dropWhile isUpperChar).head? = some '='

/-- Python `re.split(', (?=[A-Z]+=)', s)`: split on each `", "` that is
followed by an attribute tag, scanning left to right. -/
def splitTagged (cs : List Char) (acc : List Char) : List String :=
  match cs with
  | [] => [String.mk acc.reverse]
  | ',' :: ' ' :: rest =>
    if tagFollows rest then String.mk acc.reverse :: splitTagged rest []
    else splitTagged (' ' :: rest) (',' :: acc)
  | c :: rest => splitTagged rest (c :: acc)
termination_by cs.length
decreasing_by all_goals simp_arith

/-- The Issuer loop of lines 381-384: every `CN=` part overwrites, no break,
starting from the current value. -/
def issuerUpdate (old : Option String) (parts : List String) : Option String :=
  List.foldl (fun acc p => if p.take 3 = "CN=" then some (p.drop 3) else acc) old parts

/-- Python truthiness of the `subject` value at line 405. -/
def pyFalsy : Option String → Bool
  | none => true
  | some s => s = ""

def firstCNPart : List String → Option String
  | [] => none
  | p :: rest => if p.take 3 = "CN=" then some (p.drop 3) else firstCNPart rest

def firstOUPart : List String → Option String
  | [] => none
  | p :: rest => if p.take 3 = "OU=" then some (p.drop 3) else firstOUPart rest

/-- The Subject loops of lines 400-409: first `CN=` part wins (break); if
the result is falsy, the first `OU=` part is used instead. -/
def subjectUpdate (old : Option String) (parts : List String) : Option String :=
  let s1 := match firstCNPart parts with
    | some v => some v
    | none => old
  if pyFalsy s1 then
    match firstOUPart parts with
    | some u => some u
    | none => s1
  else s1

/-- Regex `^(={16}) ([^=]*) (={16})$` of line 350: the entry delimiter.
The group counts are fixed and `[^=]*` cannot absorb any `=`, so the
decomposition is unique. -/
def matchDelim (line : String) : Option String :=
  let cs := line.data
  let eq16 := List.replicate 16 '='
  if cs.take 16 = eq16 ∧ (cs.drop 16).head? = some ' ' then
    let rest := cs.drop 17
    if rest.length ≥ 17 ∧ rest.drop (rest.length - 16) = eq16
        ∧ (rest.take (rest.length - 16)).getLast? = some ' '
        ∧ (rest.take (rest.length - 17)).all (fun c => c ≠ '=') then
      some (String.mk (rest.take (rest.length - 17)))
    else none
  else none

/-- Regex `^CertUtil: -\w+ command completed successfully\.$` of line 366. -/
def matchCertUtilDone (line : String) : Bool :=
  match eatLit "CertUtil: -" line.data with
  | none => false
  | some r1 =>
    if (r1.takeWhile isWordChar).isEmpty then false
    else
      match eatLit " command completed successfully." (r1.dropWhile isWordChar) with
      | some [] => true
      | _ => false

/-- Regex `^pre(.*)$` for the fixed field prefixes of lines 373-412. -/
def matchField (pre : String) (line : String) : Option String :=
  (eatLit pre line.data).map String.mk

/-- Regex `^Cert Hash\(\w+\): (.*?)$` of line 412: the lazy group still
extends to the end of the line because of the `$` anchor. -/
def matchHashLine (line : String) : Option String :=
  match eatLit "Cert Hash(" line.data with
  | none => none
  | some r1 =>
    if (r1.takeWhile isWordChar).isEmpty then none
    else (eatLit "): " (r1.dropWhile isWordChar)).map String.mk

/-- Per-entry parser state of `_win_create_ca_bundle` (lines 338-347). -/
structure WinScan where
  entry : Option String
  serialNumber : Option String
  issuer : Option String
  subject : Option String
  notBefore : Option Int
  notAfter : Option Int
  expired : Bool
  certHash : Option String
  hashes : List String
  deriving Repr, DecidableEq

/-- One loop iteration of `_win_create_ca_bundle` (lines 349-416), in the
source's order: delimiter reset, expired skip, trailing-banner skip, leading
banner skip, then the per-field matches. -/
def winStep (timeParse : String → Int) (now : Int) (s : WinScan) (line : String) :
    WinScan :=
  match matchDelim line with
  | some e => ⟨some e, none, none, none, none, none, false, none, s.hashes⟩
  | none =>
    if s.expired then s
    else if matchCertUtilDone line then s
    else if s.entry.isNone then s
    else
      match matchField "Serial Number: " line with
      | some v => { s with serialNumber := some v }
      | none =>
        match matchField "Issuer: " line with
        | some v => { s with issuer := issuerUpdate s.issuer (splitTagged v.data []) }
        | none =>
          match matchField " NotBefore: " line with
          | some v => { s with notBefore := some (timeParse v) }
          | none =>
            match matchField " NotAfter: " line with
            | some v =>
              if timeParse v < now then
                { s with notAfter := some (timeParse v), expired := true }
              else
                { s with notAfter := some (timeParse v) }
            | none =>
              match matchField "Subject: " line with
              | some v =>
                { s with subject := subjectUpdate s.subject (splitTagged v.data []) }
              | none =>
                match matchHashLine line with
                | some v =>
                  { s with
                    certHash := some (String.mk (v.data.filter (fun c => c ≠ ' '))),
                    hashes := s.hashes
                      ++ [String.mk (v.data.filter (fun c => c ≠ ' '))] }
                | none => s

/-- Initial state before scanning one store's transcript (lines 338-347). -/
def winInit : WinScan :=
  ⟨none, none, none, none, none, none, false, none, []⟩

/-- The `cert_hashes` list collected for export from one `certutil -store`
transcript. -/
def win_store_hashes (timeParse : String → Int) (now : Int) (lines : List String) :
    List String :=
  (List.foldl (winStep timeParse now) winInit lines).hashes

/-- C5: in the Windows store parser an entry whose NotAfter timestamp is
earlier than the current time is marked expired at that line; once expired,
every following line up to the next entry delimiter leaves the state (and in
particular the collected hash list) unchanged; and on a concrete two-entry
transcript whose first entry is expired and second is not, exactly the
second entry's hash is collected for export. -/
theorem c5_win_expired_entries (timeParse : String → Int) (now : Int)
    (s : WinScan) (line v : String) :
    (s.expired = true → matchDelim line = none → winStep timeParse now s line = s)
    ∧ (matchDelim line = none → s.expired = false → matchCertUtilDone line = false →
        s.entry.isNone = false →
        matchField "Serial Number: " line = none →
        matchField "Issuer: " line = none →
        matchField " NotBefore: " line = none →
        matchField " NotAfter: " line = some v →
        timeParse v < now →
        winStep timeParse now s line
          = { s with notAfter := some (timeParse v), expired := true })
    ∧ win_store_hashes
        (fun t => if t = "01/01/2000 12:00 AM" then (0 : Int) else 100) 50
        ["================ Certificate 0 ================",
         "Serial Number: 01",
         "Issuer: CN=Expired Root, O=Org",
         " NotBefore: 01/01/1990 12:00 AM",
         " NotAfter: 01/01/2000 12:00 AM",
         "Subject: CN=Expired Root",
         "Cert Hash(sha1): aa bb cc",
         "================ Certificate 1 ================",
         "Serial Number: 02",
         "Issuer: CN=Valid Root",
         " NotBefore: 01/01/2020 12:00 AM",
         " NotAfter: 01/01/2050 12:00 AM",
         "Subject: CN=Valid Root",
         "Cert Hash(sha1): dd ee ff",
         "CertUtil: -store command completed successfully."]
      = ["ddeeff"] := by
  refine ⟨?_, ?_, ?_⟩
  · intro hexp hd
    simp [winStep, hd, hexp]
  · intro hd he hcu hen h1 h2 h3 h4 hlt
    simp [winStep, hd, he, hcu, hen, h1, h2, h3, h4, hlt]
  · decide

/-- Witness for C5: a hash line arriving while the entry is expired leaves
the state unchanged, so the hash is not collected. -/
theorem c5_win_expired_entries_witness :
    winStep (fun t => if t = "x" then (0 : Int) else 100) 50
        ⟨some "Certificate 0", some "01", none, none, none, some 0, true, none, []⟩
        "Cert Hash(sha1): aa bb cc"
      = ⟨some "Certificate 0", some "01", none, none, none, some 0, true, none, []⟩ :=
  (c5_win_expired_entries (fun t => if t = "x" then (0 : Int) else 100) 50
      ⟨some "Certificate 0", some "01", none, none, none, some 0, true, none, []⟩
      "Cert Hash(sha1): aa bb cc" "unused").1 rfl (by decide)

/-! MergedBundleCache and SystemBundleCache: `get_ca_bundle_path`,
`get_user_ca_bundle_path` and `get_system_ca_bundle_path` (lines 23-152)
over an abstract file system of content/mtime records. -/

/-- The sequence of `merged.write(...)` calls of lines 49-60: stripped
system content (nothing when no system bundle), a newline when that content
is non-empty, then the stripped user content and its conditional newline. -/
def mergedWrites (systemContent : Option String) (userContent : String) :
    List String :=
  (match systemContent with
   | none => []
   | some sc =>
     [pyStrip sc] ++ (if (pyStrip sc).length > 0 then ["\n"] else [])) ++
  ([pyStrip userContent] ++ (if (pyStrip userContent).length > 0 then ["\n"] else []))

/-- The bytes of the regenerated merged bundle. -/
def mergedContent (systemContent : Option String) (userContent : String) : String :=
  String.join (mergedWrites systemContent userContent)

/-- Merged-bundle content as claim C2 words it, parameterized by the trim
operation: trimmed system content (nothing when the system bundle is
absent) followed by one newline only if non-empty, then the trimmed user
content followed by one newline only if non-empty. -/
def mergedContentStated (trim : String → String) (systemContent : Option String)
    (userContent : String) : String :=
  (match systemContent with
   | none => ""
   | some sc => trim sc ++ (if trim sc ≠ "" then "\n" else "")) ++
  (trim userContent ++ (if trim userContent ≠ "" then "\n" else ""))

theorem strLength_pos (s : String) : (0 < s.length) ↔ s ≠ "" := by
  cases s with
  | mk data =>
    constructor
    · intro h hs
      have hd : data = [] := congrArg String.data hs
      subst hd
      exact absurd h (by decide)
    · intro h
      have hd : data ≠ [] := fun hnil => h (congrArg String.mk hnil)
      exact List.length_pos.mpr hd

theorem mergedContent_formula (systemContent : Option String) (userContent : String) :
    mergedContent systemContent userContent
      = mergedContentStated pyStrip systemContent userContent := by
  cases systemContent with
  | none =>
    by_cases hu : pyStrip userContent = ""
    · simp [mergedContent, mergedWrites, mergedContentStated, String.join, hu]
    · have : 0 < (pyStrip userContent).length := (strLength_pos _).mpr hu
      simp [mergedContent, mergedWrites, mergedContentStated, String.join, hu, this]
  | some sc =>
    by_cases hs : pyStrip sc = "" <;> by_cases hu : pyStrip userContent = ""
    · simp [mergedContent, mergedWrites, mergedContentStated, String.join, hs, hu]
    · have h2 : 0 < (pyStrip userContent).length := (strLength_pos _).mpr hu
      simp [mergedContent, mergedWrites, mergedContentStated, String.join, hs, hu, h2]
    · have h1 : 0 < (pyStrip sc).length := (strLength_pos _).mpr hs
      simp [mergedContent, mergedWrites, mergedContentStated, String.join, hs, hu, h1]
    · have h1 : 0 < (pyStrip sc).length := (strLength_pos _).mpr hs
      have h2 : 0 < (pyStrip userContent).length := (strLength_pos _).mpr hu
      simp [mergedContent, mergedWrites, mergedContentStated, String.join,
        hs, hu, h1, h2, String.append_assoc]

/-- C2 counterexample: the source strips LEADING whitespace as well
(`read_compat(...).strip()` at lines 52 and 57 is a two-sided strip), so on
a user bundle whose content carries leading whitespace the regenerated file
differs from the trailing-trim-only content the claim specifies. -/
theorem c2_merged_content_counterexample :
    mergedContent none "\nUSER CERT"
        ≠ mergedContentStated pyRstrip none "\nUSER CERT"
    ∧ mergedContent none "\nUSER CERT" = "USER CERT\n"
    ∧ mergedContentStated pyRstrip none "\nUSER CERT" = "\nUSER CERT\n" :=
  ⟨by decide, by decide, by decide⟩

/-- C2 (amended): the regenerated merged bundle is exactly the system
content with leading and trailing whitespace trimmed plus one newline if
non-empty (nothing when the system bundle is absent), then the user content
with leading and trailing whitespace trimmed plus one newline if non-empty;
with no system bundle and a user bundle holding one certificate, the merged
file is the certificate's two-side-trimmed text plus one trailing newline. -/
theorem c2_merged_content (systemContent : Option String) (userContent : String) :
    mergedContent systemContent userContent
      = mergedContentStated pyStrip systemContent userContent
    ∧ (pyStrip userContent ≠ "" →
        mergedContent none userContent = pyStrip userContent ++ "\n") := by
  refine ⟨mergedContent_formula systemContent userContent, ?_⟩
  intro hu
  rw [mergedContent_formula none userContent, mergedContentStated]
  simp [hu]

/-- Witness for C2 with a one-certificate user bundle and no system
bundle. -/
theorem c2_merged_content_witness :
    mergedContent none
        "-----BEGIN CERTIFICATE-----\nAAA\n-----END CERTIFICATE-----\n"
      = pyStrip "-----BEGIN CERTIFICATE-----\nAAA\n-----END CERTIFICATE-----\n"
        ++ "\n" :=
  (c2_merged_content none
      "-----BEGIN CERTIFICATE-----\nAAA\n-----END CERTIFICATE-----\n").2
    (by decide)

/-- A file of the cache directory: content and `os.path.getmtime` value. -/
structure BFile where
  content : String
  mtime : Int
  deriving Repr, DecidableEq

/-- The files `get_ca_bundle_path` consults. `system = none` models the
absence of a system bundle: `system_ca_bundle_path` false, or the file not
present. Modelled from the spec: `open_compat`/`read_compat` (module
`open_compat`) are not under src/, and spec section 4.7 reads the system
bundle only if present, so an absent system bundle contributes nothing to
the merge rather than failing. The user bundle always exists because
`get_user_ca_bundle_path` creates it first. -/
structure CaFS where
  system : Option BFile
  user : BFile
  merged : Option BFile
  deriving Repr, DecidableEq

/-- The regenerate decision of lines 40-46: merged missing, or the system
bundle newer than the merged file, or the user bundle newer than the merged
file. -/
def mergedRegen (fs : CaFS) : Bool :=
  let missing := fs.merged.isNone
  let r2 := missing || (match fs.system, fs.merged with
    | some sf, some mf => decide (sf.mtime > mf.mtime)
    | _, _ => false)
  r2 || (match fs.merged with
    | some mf => decide (fs.user.mtime > mf.mtime)
    | none => false)

def merged_ca_bundle_name : String := "Package Control.merged-ca-bundle"

/-- `get_ca_bundle_path` (lines 23-64) on the abstract file system: decide
staleness, rewrite the merged file when stale (its mtime becomes `now`),
return the merged path unconditionally. The triple is the file system
after, whether the file was rewritten, and the returned path. -/
def get_ca_bundle_path (now : Int) (fs : CaFS) : CaFS × Bool × String :=
  if mergedRegen fs then
    ({ fs with merged := some ⟨mergedContent (fs.system.map (fun f => f.content))
        fs.user.content, now⟩ }, true, merged_ca_bundle_name)
  else (fs, false, merged_ca_bundle_name)

/-- C7: with unchanged system and user bundles, a second merged-bundle
request neither changes the merged file bytes nor rewrites the file (the
whole file system is unchanged, so its mtime is too), and both calls return
the merged path. -/
theorem c7_merged_idempotent (now1 now2 : Int) (fs : CaFS)
    (hs : ∀ sf, fs.system = some sf → sf.mtime ≤ now1)
    (hu : fs.user.mtime ≤ now1) :
    (get_ca_bundle_path now2 (get_ca_bundle_path now1 fs).1).1
        = (get_ca_bundle_path now1 fs).1
    ∧ (get_ca_bundle_path now2 (get_ca_bundle_path now1 fs).1).2.1 = false
    ∧ (get_ca_bundle_path now1 fs).1.system = fs.system
    ∧ (get_ca_bundle_path now1 fs).1.user = fs.user
    ∧ (get_ca_bundle_path now1 fs).2.2 = merged_ca_bundle_name
    ∧ (get_ca_bundle_path now2 (get_ca_bundle_path now1 fs).1).2.2
        = merged_ca_bundle_name := by
  by_cases hre : mergedRegen fs = true
  · have h2 : mergedRegen { fs with merged := some ⟨mergedContent
        (fs.system.map (fun f => f.content)) fs.user.content, now1⟩ } = false := by
      rw [mergedRegen]
      cases hsys : fs.system with
      | none => simp [decide_eq_false (not_lt.mpr hu)]
      | some sf =>
        have hle := hs sf hsys
        simp [decide_eq_false (not_lt.mpr hu), decide_eq_false (not_lt.mpr hle)]
    refine ⟨?_, ?_, ?_, ?_, ?_, ?_⟩ <;>
      simp [get_ca_bundle_path, hre, h2]
  · have hre2 : mergedRegen fs = false := by
      cases h : mergedRegen fs
      · rfl
      · exact absurd h hre
    refine ⟨?_, ?_, ?_, ?_, ?_, ?_⟩ <;>
      simp [get_ca_bundle_path, hre2]

/-- Witness for C7 at a concrete file system with an absent merged file. -/
theorem c7_merged_idempotent_witness :
    (get_ca_bundle_path 20 (get_ca_bundle_path 10
        ⟨some ⟨"SYS", 0⟩, ⟨"USER", 0⟩, none⟩).1).1
        = (get_ca_bundle_path 10 ⟨some ⟨"SYS", 0⟩, ⟨"USER", 0⟩, none⟩).1
    ∧ (get_ca_bundle_path 20 (get_ca_bundle_path 10
        ⟨some ⟨"SYS", 0⟩, ⟨"USER", 0⟩, none⟩).1).2.1 = false :=
  ⟨(c7_merged_idempotent 10 20 ⟨some ⟨"SYS", 0⟩, ⟨"USER", 0⟩, none⟩
      (by intro sf hsf; cases hsf; decide) (by decide)).1,
   (c7_merged_idempotent 10 20 ⟨some ⟨"SYS", 0⟩, ⟨"USER", 0⟩, none⟩
      (by intro sf hsf; cases hsf; decide) (by decide)).2.1⟩

/-- The staleness decision of `get_system_ca_bundle_path` lines 113-117:
`exists_` is `os.path.exists(ca_path)`, `mtime` is `os.stat(ca_path)
.st_mtime`, `now` is `time.time()`; the bundle is rebuilt when the file does
not exist or `st_mtime < now - 604800`. -/
def systemBundleRegen (exists_ : Bool) (mtime now : Int) : Bool :=
  let is_old := exists_ && decide (mtime < now - 604800)
  !exists_ || is_old

/-- Platform dispatch of lines 109-131: a platform builder is invoked only
on win32/darwin and only when the staleness decision fires. -/
def builderInvoked (platform : String) (exists_ : Bool) (mtime now : Int) : Bool :=
  if platform = "win32" || platform = "darwin" then
    systemBundleRegen exists_ mtime now
  else false

/-- C3: on win32 and darwin the platform builder runs exactly when the
system bundle file is absent or its age strictly exceeds 604800 seconds,
measured off the file's modification time; a file aged 604801 seconds
triggers regeneration, one aged 604799 does not, and neither does one aged
exactly 604800. -/
theorem c3_staleness_check (platform : String) (exists_ : Bool) (mtime now : Int)
    (hp : platform = "win32" ∨ platform = "darwin") :
    (builderInvoked platform exists_ mtime now = true
      ↔ (exists_ = false ∨ now - mtime > 604800))
    ∧ builderInvoked platform true (now - 604801) now = true
    ∧ builderInvoked platform true (now - 604799) now = false
    ∧ builderInvoked platform true (now - 604800) now = false := by
  have hplat : (platform = "win32" || platform = "darwin") = true := by
    rcases hp with h | h <;> simp [h]
  refine ⟨?_, ?_, ?_, ?_⟩
  · rw [builderInvoked, if_pos hplat, systemBundleRegen]
    cases exists_
    · simp
    · simp
      omega
  · rw [builderInvoked, if_pos hplat, systemBundleRegen]
    simp
  · rw [builderInvoked, if_pos hplat, systemBundleRegen]
    simp
  · rw [builderInvoked, if_pos hplat, systemBundleRegen]
    simp

/-- Witness for C3 at the one-second boundaries around the week. -/
theorem c3_staleness_check_witness :
    builderInvoked "win32" true (1000000 - 604801) 1000000 = true
    ∧ builderInvoked "darwin" true (1000000 - 604799) 1000000 = false :=
  ⟨(c3_staleness_check "win32" true 0 1000000 (Or.inl rfl)).2.1,
   (c3_staleness_check "darwin" true 0 1000000 (Or.inr rfl)).2.2.1⟩

/-- The XP guard of `_win_create_ca_bundle` (lines 321-325): on the
end-of-life release the builder returns without writing anything and
without raising; `buildContent` abstracts the store scan and export of
lines 327-440 that otherwise produce the written content. The result is
the content written, `none` when nothing is written. -/
def win_create_ca_bundle (release : String) (buildContent : Unit → String) :
    Option String :=
  if release = "XP" then none else some (buildContent ())

/-- `get_system_ca_bundle_path` on win32 (lines 109-128) acting on the
system bundle file state: rebuild via the Windows builder when missing or
stale; a builder that writes nothing leaves the file state unchanged. -/
def get_system_bundle_file_win (release : String) (existing : Option BFile)
    (now : Int) (buildContent : Unit → String) : Option BFile :=
  if systemBundleRegen existing.isSome
      ((existing.map (fun f => f.mtime)).getD 0) now then
    match win_create_ca_bundle release buildContent with
    | none => existing
    | some c => some ⟨c, now⟩
  else existing

/-- C9: on a Windows release identifying as XP the bundle build is skipped
without writing and without error, the system bundle file stays absent, and
the merged-bundle operation still succeeds: it returns the merged path and
writes the user-only content (the system bundle contributes nothing). -/
theorem c9_xp_skip (buildContent : Unit → String) (now now2 : Int) (user : BFile) :
    win_create_ca_bundle "XP" buildContent = none
    ∧ get_system_bundle_file_win "XP" none now buildContent = none
    ∧ (get_ca_bundle_path now2 ⟨none, user, none⟩).2.2 = merged_ca_bundle_name
    ∧ (get_ca_bundle_path now2 ⟨none, user, none⟩).1.merged
        = some ⟨mergedContent none user.content, now2⟩
    ∧ mergedContent none user.content
        = pyStrip user.content
          ++ (if pyStrip user.content ≠ "" then "\n" else "") := by
  refine ⟨rfl, ?_, ?_, ?_, ?_⟩
  · simp [get_system_bundle_file_win, win_create_ca_bundle, systemBundleRegen]
  · simp [get_ca_bundle_path, mergedRegen]
  · simp [get_ca_bundle_path, mergedRegen]
  · rw [mergedContent_formula none user.content, mergedContentStated]
    simp

def user_ca_bundle_name : String := "Package Control.user-ca-bundle"

/-- `get_user_ca_bundle_path` (lines 67-86) on the user bundle file state:
`open(path, 'a').close()` creates an empty file only when the file is
absent; an existing file is not touched. The pair is the file state after
and the returned path. -/
def get_user_ca_bundle_path (user : Option BFile) (now : Int) : BFile × String :=
  match user with
  | none => (⟨"", now⟩, user_ca_bundle_name)
  | some f => (f, user_ca_bundle_name)

/-- C10: requesting the user bundle path never modifies an existing user
bundle file: the file record (bytes and mtime) is returned untouched with
the same path; only when the file is absent is an empty file created. -/
theorem c10_user_bundle_preserved (user : Option BFile) (now : Int) :
    (∀ f, user = some f → get_user_ca_bundle_path user now = (f, user_ca_bundle_name))
    ∧ (user = none → (get_user_ca_bundle_path user now).1.content = "")
    ∧ (get_user_ca_bundle_path user now).2 = user_ca_bundle_name := by
  refine ⟨?_, ?_, ?_⟩
  · intro f hf
    rw [hf]
    rfl
  · intro hf
    rw [hf]
    rfl
  · cases user <;> rfl

/-- Witness for C10 at a concrete existing user bundle. -/
theorem c10_user_bundle_preserved_witness :
    get_user_ca_bundle_path (some ⟨"MY CERT", 7⟩) 99
      = (⟨"MY CERT", 7⟩, user_ca_bundle_name) :=
  (c10_user_bundle_preserved (some ⟨"MY CERT", 7⟩) 99).1 ⟨"MY CERT", 7⟩ rfl

end CaCerts
